/-
Verification of the spatial interpolation engine of the h2-viewer
repository (src/kriging.ts and the IDW interpolator).

The TypeScript source is shallowly embedded over the real numbers:
JavaScript floating-point numbers are modelled by ℝ, `Math.sqrt` by
`Real.sqrt`, `Math.exp` by `Real.exp`, and `Math.pow` with a real
exponent by `Real.rpow`.  Where JavaScript produces the non-finite
value -Infinity (namely `Math.max()` applied to an empty spread), the
embedding uses `Option ℝ` with `none` standing for that non-finite
result; this is noted at each definition concerned.
-/
import Mathlib

open BigOperators

/-- Variogram model selector of kriging.ts (`VariogramModel`), a closed
three-way enumeration. -/
inductive VariogramModel
  | exponential
  | gaussian
  | spherical
deriving DecidableEq

/-- Sample point of interpolation.types.ts (`DataPoint`): a latitude,
a longitude and the measured scalar value `h2`. -/
structure DataPoint where
  lat : ℝ
  lon : ℝ
  h2 : ℝ

/-- Embeds `Kriging.distance` (and the identical inline distance of
`interpolateIDW`): planar Euclidean distance on the (lon, lat) plane,
`sqrt((lon1-lon2)^2 + (lat1-lat2)^2)`. -/
noncomputable def dist2 (lon1 lat1 lon2 lat2 : ℝ) : ℝ :=
  Real.sqrt ((lon1 - lon2) ^ 2 + (lat1 - lat2) ^ 2)

/-- Embeds `Kriging.variogram`: returns 0 at separation 0, else
dispatches on the model, with spatial contribution `c = sill - nugget`.
The TypeScript switch has a default arm equal to the exponential arm;
the enumeration here is closed so that arm is unreachable. -/
noncomputable def variogram (model : VariogramModel) (nugget sill rng h : ℝ) : ℝ :=
  if h = 0 then 0
  else
    let c := sill - nugget
    match model with
    | .exponential => nugget + c * (1 - Real.exp (-3 * h / rng))
    | .gaussian => nugget + c * (1 - Real.exp (-3 * (h / rng) ^ 2))
    | .spherical =>
        if h ≥ rng then sill
        else nugget + c * (1.5 * h / rng - 0.5 * (h / rng) ^ 3)

/-- Embeds the accumulator loop of `interpolateIDW` (idw.ts): walks the
sample list carrying `weightSum` and `valueSum`; a sample closer than
`minDistance` short-circuits and returns that sample's value; the empty
tail returns `valueSum / weightSum`. -/
noncomputable def idwGo (lon lat power minDistance : ℝ) :
    List DataPoint → ℝ → ℝ → ℝ
  | [], weightSum, valueSum => valueSum / weightSum
  | point :: rest, weightSum, valueSum =>
      if dist2 point.lon point.lat lon lat < minDistance then point.h2
      else idwGo lon lat power minDistance rest
        (weightSum + 1 / dist2 point.lon point.lat lon lat ^ power)
        (valueSum + (1 / dist2 point.lon point.lat lon lat ^ power) * point.h2)

/-- Embeds `interpolateIDW` (idw.ts): inverse-distance weighting with
exponent `power` (default 2) and short-circuit radius `minDistance`
(default 1e-4), starting both accumulators at 0. -/
noncomputable def interpolateIDW (lon lat : ℝ) (points : List DataPoint)
    (power : ℝ := 2) (minDistance : ℝ := 0.0001) : ℝ :=
  idwGo lon lat power minDistance points 0 0

/-- Embeds the mean computation of `Kriging.fitVariogram`
(`values.reduce((a,b) => a+b, 0) / values.length`).  The model divides
in ℝ, where division by zero yields 0; in JavaScript an empty list
yields NaN. -/
noncomputable def listMean (vals : List ℝ) : ℝ :=
  vals.sum / vals.length

/-- Embeds the variance computation of `Kriging.fitVariogram`
(population variance: mean squared deviation from the mean, divided by
the element count). -/
noncomputable def popVariance (vals : List ℝ) : ℝ :=
  (vals.map (fun v => (v - listMean vals) ^ 2)).sum / vals.length

/-- Embeds the sill estimate of `Kriging.fitVariogram`:
`this.sill = variance * 1.2`. -/
noncomputable def fittedSill (data : List DataPoint) : ℝ :=
  popVariance (data.map (fun d => d.h2)) * 1.2

/-- Embeds the double loop of `Kriging.fitVariogram` collecting the
pairwise distances `distance(data[i], data[j])` for all i < j (the
loop also pushes empirical semivariances, which the function never
reads afterwards, so they are not modelled). -/
noncomputable def pairwiseDistances : List DataPoint → List ℝ
  | [] => []
  | p :: rest =>
      (rest.map (fun q => dist2 p.lon p.lat q.lon q.lat)) ++
        pairwiseDistances rest

/-- Models the JavaScript expression `Math.max(...distances)`: applied
to an empty spread `Math.max` returns -Infinity, modelled here as
`none`; applied to a non-empty list it returns the maximum element. -/
noncomputable def jsMax : List ℝ → Option ℝ
  | [] => none
  | x :: xs => some (xs.foldl max x)

/-- Embeds the range estimate of `Kriging.fitVariogram`:
`this.range = Math.max(...distances) * 0.3`; `none` models the
non-finite JavaScript result -Infinity arising when the data set has
fewer than 2 samples (empty distance list). -/
noncomputable def fittedRange (data : List DataPoint) : Option ℝ :=
  (jsMax (pairwiseDistances data)).map (fun m => m * 0.3)

/-- Embeds `KrigingParams` (kriging.ts): every field optional, `none`
modelling an absent (undefined/null) field. -/
structure KrigingParams where
  model : Option VariogramModel := none
  nugget : Option ℝ := none
  sill : Option ℝ := none
  range : Option ℝ := none

/-- Embeds the constructor test
`if (this.sill === null || this.range === null) this.fitVariogram()`:
the fitter runs when either parameter is absent. -/
def fitCond (params : KrigingParams) : Bool :=
  params.sill.isNone || params.range.isNone

/-- Embeds the resolved sill: the constructor stores
`params.sill ?? null` and `fitVariogram` (when it runs) overwrites it
with the fitted estimate. -/
noncomputable def resolvedSill (data : List DataPoint) (params : KrigingParams) : ℝ :=
  if fitCond params then fittedSill data else params.sill.getD 0

/-- Embeds the resolved range (`none` models a non-finite JavaScript
value, see `fittedRange`). -/
noncomputable def resolvedRange (data : List DataPoint) (params : KrigingParams) :
    Option ℝ :=
  if fitCond params then fittedRange data else params.range

/-- Embeds the resolved nugget: the constructor stores
`params.nugget || 0` (so an absent nugget and a supplied 0 coincide),
and `fitVariogram` replaces a zero nugget by `sill * 0.05`. -/
noncomputable def resolvedNugget (data : List DataPoint) (params : KrigingParams) : ℝ :=
  let n0 := params.nugget.getD 0
  if fitCond params then
    (if n0 = 0 then fittedSill data * 0.05 else n0)
  else n0

/-- Embeds the covariance matrix construction of
`Kriging.prepareMatrices`:
`K[i][j] = sill - variogram(distance(data[i], data[j]))`. -/
noncomputable def covMatrixL (data : List DataPoint) (model : VariogramModel)
    (nugget sill rng : ℝ) : List (List ℝ) :=
  data.map (fun p =>
    data.map (fun q => sill - variogram model nugget sill rng
      (dist2 p.lon p.lat q.lon q.lat)))

/-- Embeds the identity-row construction of `Kriging.invertMatrix`
(`identity[i][j] = i === j ? 1 : 0`). -/
noncomputable def identityRow (n i : Nat) : List ℝ :=
  (List.range n).map (fun j => if i = j then 1 else 0)

/-- Embeds the augmentation `[A | I]` of `Kriging.invertMatrix`:
row i of the input is extended by row i of the n×n identity. -/
noncomputable def augmentRows (n : Nat) : Nat → List (List ℝ) → List (List ℝ)
  | _, [] => []
  | i, row :: rest => (row ++ identityRow n i) :: augmentRows n (i + 1) rest

/-- Embeds the pivot search of `Kriging.invertMatrix`: starting from
`maxRow = i`, scan rows i+1 .. n-1 and move to any row whose column-i
entry has strictly larger absolute value. -/
noncomputable def pivotRow (aug : List (List ℝ)) (i : Nat) : Nat :=
  (List.range' (i + 1) (aug.length - (i + 1))).foldl
    (fun maxRow k =>
      if |(aug.getD k []).getD i 0| > |(aug.getD maxRow []).getD i 0| then k
      else maxRow) i

/-- Embeds the destructuring row swap
`[augmented[i], augmented[maxRow]] = [augmented[maxRow], augmented[i]]`
(both reads happen before either write). -/
def swapRows (aug : List (List ℝ)) (i j : Nat) : List (List ℝ) :=
  (aug.set i (aug.getD j [])).set j (aug.getD i [])

/-- Embeds the elimination loop of `Kriging.invertMatrix`: every row
except the pivot row i is replaced by
`row - row[i] * pivotRowVals` elementwise. -/
noncomputable def eliminateRows (i : Nat) (pivotRowVals : List ℝ) :
    Nat → List (List ℝ) → List (List ℝ)
  | _, [] => []
  | k, row :: rest =>
      (if k = i then row
       else row.zipWith (fun a b => a - (row.getD i 0) * b) pivotRowVals) ::
        eliminateRows i pivotRowVals (k + 1) rest

/-- The augmented matrix after the row swap of iteration i of
`Kriging.invertMatrix` (the swap happens before the pivot tolerance
check). -/
noncomputable def gjSwapped (aug : List (List ℝ)) (i : Nat) : List (List ℝ) :=
  swapRows aug i (pivotRow aug i)

/-- The pivot read by iteration i of `Kriging.invertMatrix`:
`augmented[i][i]` after the swap. -/
noncomputable def gjPivot (aug : List (List ℝ)) (i : Nat) : ℝ :=
  ((gjSwapped aug i).getD i []).getD i 0

/-- The augmented matrix after the pivot-row normalisation
`augmented[i][j] /= pivot` of iteration i of `Kriging.invertMatrix`. -/
noncomputable def gjNormalized (aug : List (List ℝ)) (i : Nat) : List (List ℝ) :=
  (gjSwapped aug i).set i
    (((gjSwapped aug i).getD i []).map (fun x => x / gjPivot aug i))

/-- Embeds one iteration of the outer Gauss-Jordan loop of
`Kriging.invertMatrix`: select the pivot row by partial pivoting, swap
it into place, and — unless the pivot's absolute value is below the
1e-10 tolerance, in which case the iteration stops after the swap
(warn-and-continue) — normalise the pivot row and eliminate the pivot
column from every other row. -/
noncomputable def gjStep (aug : List (List ℝ)) (i : Nat) : List (List ℝ) :=
  if |gjPivot aug i| < 1e-10 then gjSwapped aug i
  else eliminateRows i ((gjNormalized aug i).getD i []) 0 (gjNormalized aug i)

/-- Embeds `Kriging.invertMatrix`: augment with the identity, run the
Gauss-Jordan loop for rows 0 .. n-1, and keep the right halves. -/
noncomputable def invertMatrix (matrix : List (List ℝ)) : List (List ℝ) :=
  let n := matrix.length
  let reduced := (List.range n).foldl gjStep (augmentRows n 0 matrix)
  reduced.map (fun row => row.drop n)

/-- Embeds the `Kriging` instance state after construction: the sample
list, the resolved variogram parameters, and the matrices K and M set
by `prepareMatrices`.  The fields `K` and `M` are declared nullable in
the source (`number[][] | null`), hence `Option` here. -/
structure Kriging where
  data : List DataPoint
  model : VariogramModel
  nugget : ℝ
  sill : ℝ
  range : Option ℝ
  K : Option (List (List ℝ))
  M : Option (List (List ℝ))

/-- Embeds the `Kriging` constructor: resolve the parameters (running
`fitVariogram` when sill or range is absent), then unconditionally run
`prepareMatrices`, which assigns `K` and `M = invertMatrix(K)`.  The
constructor contains no validation and no throw: it is total.  When the
resolved range is the non-finite JavaScript value (`none`), the matrix
entries computed by JavaScript are non-finite junk; the model builds
the matrices with range 0, equally meaningless numerically, and no
result below inspects those entries. -/
noncomputable def Kriging.make (data : List DataPoint) (params : KrigingParams) :
    Kriging :=
  let model := params.model.getD VariogramModel.exponential
  let nugget := resolvedNugget data params
  let sill := resolvedSill data params
  let rng := resolvedRange data params
  let Km := covMatrixL data model nugget sill (rng.getD 0)
  { data := data, model := model, nugget := nugget, sill := sill,
    range := rng, K := some Km, M := some (invertMatrix Km) }

/-- Embeds `VariogramParameters`, the record returned by
`Kriging.getParameters`. -/
structure VariogramParameters where
  model : VariogramModel
  nugget : ℝ
  sill : ℝ
  range : Option ℝ

/-- Embeds `Kriging.getParameters`: a read accessor over the resolved
parameters. -/
def Kriging.getParameters (k : Kriging) : VariogramParameters :=
  ⟨k.model, k.nugget, k.sill, k.range⟩

/-- Error raised by `Kriging.interpolate` and `Kriging.variance` when
the inverse matrix field is still null
(`throw new Error('Matrix not initialized')`). -/
inductive KrigingQueryError
  | uninitialized
deriving DecidableEq

/-- Embeds `Kriging.interpolate`: fail if `M` is null; otherwise build
the covariance vector k, the weights M·k, and return Σ weights·values. -/
noncomputable def Kriging.interpolateE (k : Kriging) (lon lat : ℝ) :
    Except KrigingQueryError ℝ :=
  match k.M with
  | none => .error .uninitialized
  | some M =>
      let kv := k.data.map (fun p =>
        k.sill - variogram k.model k.nugget k.sill (k.range.getD 0)
          (dist2 lon lat p.lon p.lat))
      let weights := M.map (fun row => (row.zipWith (· * ·) kv).sum)
      .ok ((weights.zipWith (fun w p => w * p.h2) k.data).sum)

/-- Embeds `Kriging.variance`: fail if `M` is null; otherwise return
`max(0, sill - Σ weights·k)`. -/
noncomputable def Kriging.varianceE (k : Kriging) (lon lat : ℝ) :
    Except KrigingQueryError ℝ :=
  match k.M with
  | none => .error .uninitialized
  | some M =>
      let kv := k.data.map (fun p =>
        k.sill - variogram k.model k.nugget k.sill (k.range.getD 0)
          (dist2 lon lat p.lon p.lat))
      let weights := M.map (fun row => (row.zipWith (· * ·) kv).sum)
      .ok (max 0 (k.sill - (weights.zipWith (· * ·) kv).sum))

/-- Squareness predicate: every row of the matrix is as long as the
matrix has rows. -/
def SquareMat (m : List (List ℝ)) : Prop :=
  ∀ row ∈ m, row.length = m.length

/-- Row-width predicate: every row of the matrix has length c. -/
def RowsLen (m : List (List ℝ)) (c : Nat) : Prop :=
  ∀ row ∈ m, row.length = c

/-- Embeds the covariance-vector loop of `Kriging.interpolate`:
`k[i] = sill - variogram(distance({lon, lat}, data[i]))`, indexed over
the sample positions. -/
noncomputable def kvecF (data : List DataPoint) (model : VariogramModel)
    (nugget sill rng lon lat : ℝ) (i : Fin data.length) : ℝ :=
  sill - variogram model nugget sill rng
    (dist2 lon lat (data.get i).lon (data.get i).lat)

/-- Embeds the covariance matrix of `Kriging.prepareMatrices` as a
function matrix over the sample positions:
`K[i][j] = sill - variogram(distance(data[i], data[j]))`. -/
noncomputable def KmatF (data : List DataPoint) (model : VariogramModel)
    (nugget sill rng : ℝ) :
    Matrix (Fin data.length) (Fin data.length) ℝ :=
  Matrix.of fun i j => sill - variogram model nugget sill rng
    (dist2 (data.get i).lon (data.get i).lat (data.get j).lon (data.get j).lat)

/-- Embeds the weight and prediction loops of `Kriging.interpolate`
for a given inverse matrix M: `weights = M · k` and the returned value
`Σ weights[i] * data[i].h2`. -/
noncomputable def interpolateF (data : List DataPoint) (model : VariogramModel)
    (nugget sill rng : ℝ)
    (M : Matrix (Fin data.length) (Fin data.length) ℝ) (lon lat : ℝ) : ℝ :=
  ∑ i, (∑ j, M i j * kvecF data model nugget sill rng lon lat j) *
    (data.get i).h2

/-- C5: for every nugget/sill/range with range > 0 and every separation
h ≥ range, the spherical variogram returns exactly sill.  (h ≥ range > 0
rules out the h = 0 early return, and the spherical arm then takes its
first branch.) -/
theorem spherical_variogram_sill_beyond_range
    (nugget sill rng h : ℝ) (hrng : 0 < rng) (hge : rng ≤ h) :
    variogram VariogramModel.spherical nugget sill rng h = sill := by
  have hne : h ≠ 0 := ne_of_gt (lt_of_lt_of_le hrng hge)
  unfold variogram
  rw [if_neg hne]
  simp only
  rw [if_pos hge]

/-- Witness for C5 at nugget 0, sill 2, range 1, h 5. -/
theorem spherical_variogram_sill_beyond_range_witness :
    (0 : ℝ) < 1 ∧ (1 : ℝ) ≤ 5 ∧
      variogram VariogramModel.spherical 0 2 1 5 = 2 :=
  ⟨by norm_num, by norm_num,
    spherical_variogram_sill_beyond_range 0 2 1 5 (by norm_num) (by norm_num)⟩

/-- C3: on the empty sample list `interpolateIDW` raises no error and
returns the quotient of its zero-initialised accumulators, `0 / 0`
(NaN in JavaScript, 0 in this real-number model) — the empty-set case
is not guarded. -/
theorem idw_empty_returns_quotient_of_zero_accumulators
    (lon lat power minDistance : ℝ) :
    interpolateIDW lon lat [] power minDistance = (0 : ℝ) / 0 := rfl

/-- Counterexample to C8 as stated: two samples both lying within
`minDistance` of the query carry different values, and the two orders
of the same sample list return different results (10 versus 20), so
`interpolateIDW` is not permutation-invariant even under exact
arithmetic once two short-circuit candidates disagree. -/
theorem idw_perm_counterexample :
    List.Perm
      [(⟨0, 0, 10⟩ : DataPoint), ⟨0, 1 / 20000, 20⟩]
      [(⟨0, 1 / 20000, 20⟩ : DataPoint), ⟨0, 0, 10⟩] ∧
    interpolateIDW 0 0 [⟨0, 0, 10⟩, ⟨0, 1 / 20000, 20⟩] 2 (1 / 10000) = 10 ∧
    interpolateIDW 0 0 [⟨0, 1 / 20000, 20⟩, ⟨0, 0, 10⟩] 2 (1 / 10000) = 20 ∧
    (10 : ℝ) ≠ 20 := by
  refine ⟨List.Perm.swap _ _ _, ?_, ?_, by norm_num⟩
  · have h0 : dist2 0 0 0 0 = 0 := by
      simp [dist2]
    rw [interpolateIDW, idwGo]
    simp only [h0]
    rw [if_pos (by norm_num)]
  · have h1 : dist2 (1 / 20000) 0 0 0 = 1 / 20000 := by
      rw [dist2]
      rw [show ((1 : ℝ) / 20000 - 0) ^ 2 + (0 - 0) ^ 2 = (1 / 20000) ^ 2 by ring]
      exact Real.sqrt_sq (by norm_num)
    rw [interpolateIDW, idwGo]
    simp only [h1]
    rw [if_pos (by norm_num)]

/-- Helper for the amended C8: when no sample lies within `minDistance`
of the query, the accumulator loop computes the closed-form weighted
quotient over the whole list, for any starting accumulators. -/
theorem idwGo_no_shortcircuit (lon lat power minDistance : ℝ)
    (l : List DataPoint)
    (hfar : ∀ p ∈ l, ¬ dist2 p.lon p.lat lon lat < minDistance) :
    ∀ weightSum valueSum,
      idwGo lon lat power minDistance l weightSum valueSum =
        (valueSum +
            (l.map (fun p =>
              (1 / dist2 p.lon p.lat lon lat ^ power) * p.h2)).sum) /
        (weightSum +
            (l.map (fun p => 1 / dist2 p.lon p.lat lon lat ^ power)).sum) := by
  induction l with
  | nil => intro ws vs; simp [idwGo]
  | cons p rest ih =>
      intro ws vs
      rw [idwGo]
      rw [if_neg (hfar p (List.mem_cons_self p rest))]
      rw [ih (fun q hq => hfar q (List.mem_cons_of_mem p hq))]
      rw [List.map_cons, List.map_cons, List.sum_cons, List.sum_cons,
        add_assoc, add_assoc]

/-- C8 amended: `interpolateIDW` returns the same value on every
permutation of the sample list provided no sample lies strictly within
`minDistance` of the query point (so the short-circuit never fires);
with two or more differing samples inside `minDistance` the result is
order-dependent, as the counterexample shows. -/
theorem idw_perm_invariant_when_no_shortcircuit
    (lon lat power minDistance : ℝ) (l1 l2 : List DataPoint)
    (hperm : List.Perm l1 l2)
    (hfar : ∀ p ∈ l1, ¬ dist2 p.lon p.lat lon lat < minDistance) :
    interpolateIDW lon lat l1 power minDistance =
      interpolateIDW lon lat l2 power minDistance := by
  have hfar2 : ∀ p ∈ l2, ¬ dist2 p.lon p.lat lon lat < minDistance :=
    fun p hp => hfar p (hperm.mem_iff.mpr hp)
  rw [interpolateIDW, interpolateIDW,
    idwGo_no_shortcircuit lon lat power minDistance l1 hfar 0 0,
    idwGo_no_shortcircuit lon lat power minDistance l2 hfar2 0 0,
    List.Perm.sum_eq (hperm.map _), List.Perm.sum_eq (hperm.map _)]

/-- Witness for the amended C8: the two-sample configuration of the
spec's own IDW test, queried midway, under the swap permutation. -/
theorem idw_perm_invariant_when_no_shortcircuit_witness :
    List.Perm
      [(⟨0, 0, 10⟩ : DataPoint), ⟨0, 1, 20⟩]
      [(⟨0, 1, 20⟩ : DataPoint), ⟨0, 0, 10⟩] ∧
    (∀ p ∈ [(⟨0, 0, 10⟩ : DataPoint), ⟨0, 1, 20⟩],
        ¬ dist2 p.lon p.lat 0.5 0 < 0.0001) ∧
    interpolateIDW 0.5 0 [⟨0, 0, 10⟩, ⟨0, 1, 20⟩] 2 0.0001 =
      interpolateIDW 0.5 0 [⟨0, 1, 20⟩, ⟨0, 0, 10⟩] 2 0.0001 := by
  have hhalf : ∀ a : ℝ, (a - 0.5) ^ 2 + (0 - 0) ^ 2 = (a - 0.5) ^ 2 := by
    intro a; ring
  have hfar : ∀ p ∈ [(⟨0, 0, 10⟩ : DataPoint), ⟨0, 1, 20⟩],
      ¬ dist2 p.lon p.lat 0.5 0 < 0.0001 := by
    intro p hp
    rcases List.mem_cons.mp hp with h | h
    · subst h
      rw [dist2]
      simp only
      rw [hhalf, show ((0 : ℝ) - 0.5) ^ 2 = 0.5 ^ 2 by ring,
        Real.sqrt_sq (by norm_num)]
      norm_num
    · rw [List.mem_singleton.mp h]
      rw [dist2]
      simp only
      rw [hhalf, show ((1 : ℝ) - 0.5) ^ 2 = 0.5 ^ 2 by ring,
        Real.sqrt_sq (by norm_num)]
      norm_num
  exact ⟨List.Perm.swap _ _ _, hfar,
    idw_perm_invariant_when_no_shortcircuit 0.5 0 2 0.0001 _ _
      (List.Perm.swap _ _ _) hfar⟩

/-- C2: constructing a Kriging engine from a single sample with neither
sill nor range supplied does not fail — there is no ConfigurationError
path in the constructor.  Construction completes, the inverse matrix is
assigned, and the fitted range is the non-finite JavaScript value
-Infinity (`Math.max()` over the empty pairwise-distance list),
modelled as `none`. -/
theorem kriging_underfit_construction_completes :
    (Kriging.make [⟨0, 0, 7⟩] {}).range = none ∧
    (Kriging.make [⟨0, 0, 7⟩] {}).M.isSome = true :=
  ⟨rfl, rfl⟩

/-- C4: the constructor performs no validation of the sample values at
all — for every sample list (in JavaScript: including lists holding
NaN or Infinity) and every parameter record, construction completes,
the data is stored unchecked, and the matrices are built. -/
theorem kriging_construction_never_rejects (data : List DataPoint)
    (params : KrigingParams) :
    (Kriging.make data params).data = data ∧
    (Kriging.make data params).M.isSome = true :=
  ⟨rfl, rfl⟩

/-- C9: on every constructed engine the field `M` is non-null
(`prepareMatrices` assigns it unconditionally), so the
'Matrix not initialized' branches of `interpolate` and `variance`
are unreachable: both queries always return a value. -/
theorem kriging_ready_no_uninitialized_error (data : List DataPoint)
    (params : KrigingParams) (lon lat : ℝ) :
    (Kriging.make data params).M.isSome = true ∧
    (∃ v, (Kriging.make data params).interpolateE lon lat = Except.ok v) ∧
    (∃ w, (Kriging.make data params).varianceE lon lat = Except.ok w) :=
  ⟨rfl, ⟨_, rfl⟩, ⟨_, rfl⟩⟩

/-- Characterisation of the JavaScript max fold: the fold of `max` over
`x :: xs` is an element of `x :: xs` and bounds every element. -/
theorem foldlMax_spec (xs : List ℝ) : ∀ x : ℝ,
    (xs.foldl max x = x ∨ xs.foldl max x ∈ xs) ∧
    x ≤ xs.foldl max x ∧ ∀ y ∈ xs, y ≤ xs.foldl max x := by
  induction xs with
  | nil => intro x; exact ⟨Or.inl rfl, le_refl x, by intro y hy; cases hy⟩
  | cons a xs ih =>
      intro x
      obtain ⟨hmem, hle, hbound⟩ := ih (max x a)
      simp only [List.foldl_cons]
      refine ⟨?_, ?_, ?_⟩
      · rcases hmem with h | h
        · rcases max_choice x a with hc | hc
          · exact Or.inl (by rw [h, hc])
          · exact Or.inr (by rw [h, hc]; exact List.mem_cons_self a xs)
        · exact Or.inr (List.mem_cons_of_mem a h)
      · exact le_trans (le_max_left x a) hle
      · intro y hy
        rcases List.mem_cons.mp hy with h | h
        · rw [h]; exact le_trans (le_max_right x a) hle
        · exact hbound y h

/-- Characterisation of `jsMax` on a non-empty list: the returned value
is an element of the list and an upper bound of the list. -/
theorem jsMax_spec (l : List ℝ) (m : ℝ) (h : jsMax l = some m) :
    m ∈ l ∧ ∀ y ∈ l, y ≤ m := by
  match l with
  | [] => exact absurd h (by simp [jsMax])
  | x :: xs =>
      have hm : m = xs.foldl max x := by
        have := h
        simp only [jsMax, Option.some.injEq] at this
        exact this.symm
      obtain ⟨hmem, hle, hbound⟩ := foldlMax_spec xs x
      subst hm
      constructor
      · rcases hmem with h' | h'
        · rw [h']; exact List.mem_cons_self x xs
        · exact List.mem_cons_of_mem x h'
      · intro y hy
        rcases List.mem_cons.mp hy with h' | h'
        · rw [h']; exact hle
        · exact hbound y h'

/-- With at least two samples the pairwise-distance list is
non-empty. -/
theorem pairwiseDistances_ne_nil (data : List DataPoint)
    (h : 2 ≤ data.length) : pairwiseDistances data ≠ [] := by
  match data with
  | [] => simp at h
  | [p] => simp at h
  | p :: q :: rest => simp [pairwiseDistances]

/-- C6: with at least 2 samples and neither sill nor range supplied,
the fitter resolves `sill` to the population variance of the sample
values times 1.2 and `range` to 0.3 times the maximum pairwise
Euclidean distance, and — when no nugget was supplied — `nugget`
to `sill * 0.05`. -/
theorem fitter_formulas (data : List DataPoint) (params : KrigingParams)
    (hlen : 2 ≤ data.length) (hsill : params.sill = none)
    (hrange : params.range = none) :
    (Kriging.make data params).getParameters.sill
        = popVariance (data.map (fun d => d.h2)) * 1.2 ∧
    (∃ m, m ∈ pairwiseDistances data ∧
        (∀ d ∈ pairwiseDistances data, d ≤ m) ∧
        (Kriging.make data params).getParameters.range = some (m * 0.3)) ∧
    (params.nugget = none →
        (Kriging.make data params).getParameters.nugget
          = (Kriging.make data params).getParameters.sill * 0.05) := by
  have hfit : fitCond params = true := by
    simp [fitCond, hsill]
  refine ⟨?_, ?_, ?_⟩
  · simp [Kriging.make, Kriging.getParameters, resolvedSill, hfit, fittedSill]
  · obtain ⟨x, xs, hxs⟩ : ∃ x xs, pairwiseDistances data = x :: xs := by
      cases hpd : pairwiseDistances data with
      | nil => exact absurd hpd (pairwiseDistances_ne_nil data hlen)
      | cons x xs => exact ⟨x, xs, rfl⟩
    have hjs : jsMax (pairwiseDistances data) = some (xs.foldl max x) := by
      rw [hxs]; rfl
    obtain ⟨hmem, hbound⟩ := jsMax_spec _ _ hjs
    refine ⟨xs.foldl max x, hmem, hbound, ?_⟩
    simp [Kriging.make, Kriging.getParameters, resolvedRange, hfit,
      fittedRange, hjs]
  · intro hn
    simp [Kriging.make, Kriging.getParameters, resolvedNugget, resolvedSill,
      hfit, hn]

/-- Witness for C6: two samples at planar distance 5 with values 0 and
2, all parameters left to the fitter. -/
theorem fitter_formulas_witness :
    2 ≤ ([(⟨0, 0, 0⟩ : DataPoint), ⟨3, 4, 2⟩] : List DataPoint).length ∧
    ({} : KrigingParams).sill = none ∧
    ({} : KrigingParams).range = none ∧
    ((Kriging.make [⟨0, 0, 0⟩, ⟨3, 4, 2⟩] {}).getParameters.sill
        = popVariance
            (([(⟨0, 0, 0⟩ : DataPoint), ⟨3, 4, 2⟩]).map (fun d => d.h2)) * 1.2 ∧
      (∃ m, m ∈ pairwiseDistances [(⟨0, 0, 0⟩ : DataPoint), ⟨3, 4, 2⟩] ∧
        (∀ d ∈ pairwiseDistances [(⟨0, 0, 0⟩ : DataPoint), ⟨3, 4, 2⟩], d ≤ m) ∧
        (Kriging.make [⟨0, 0, 0⟩, ⟨3, 4, 2⟩] {}).getParameters.range
          = some (m * 0.3)) ∧
      (({} : KrigingParams).nugget = none →
        (Kriging.make [⟨0, 0, 0⟩, ⟨3, 4, 2⟩] {}).getParameters.nugget
          = (Kriging.make [⟨0, 0, 0⟩, ⟨3, 4, 2⟩] {}).getParameters.sill * 0.05)) :=
  ⟨by decide, rfl, rfl,
    fitter_formulas [⟨0, 0, 0⟩, ⟨3, 4, 2⟩] {} (by decide) rfl rfl⟩

/-- Counterexample to C10 as stated: when every sample value is equal
the fitted sill is 0, so the resolved nugget `sill * 0.05` is itself 0
— the claim's parenthetical "never 0" fails even though the nugget is
still `sill * 0.05`. -/
theorem nugget_zero_conflation_counterexample :
    (Kriging.make [⟨0, 0, 5⟩, ⟨0, 1, 5⟩]
        { nugget := some 0 }).getParameters.nugget = 0 := by
  have hfit : fitCond { nugget := some 0 } = true := rfl
  simp [Kriging.make, Kriging.getParameters, resolvedNugget, hfit,
    fittedSill, popVariance, listMean]

/-- C10 amended: if the caller passes nugget = 0 or omits the nugget
while leaving sill or range unset, the resolved nugget reported by
`getParameters` is `sill * 0.05` — a supplied zero nugget is never
preserved under auto-fitting, because `params.nugget || 0` and the
fitter's `nugget === 0` test conflate a supplied zero with an absent
value.  (The resolved value is itself 0 exactly when the fitted sill
is 0, e.g. when all sample values coincide.) -/
theorem nugget_zero_conflation (data : List DataPoint)
    (params : KrigingParams) (hd : data ≠ [])
    (hfit : params.sill = none ∨ params.range = none)
    (hn : params.nugget = none ∨ params.nugget = some 0) :
    (Kriging.make data params).getParameters.nugget
      = (Kriging.make data params).getParameters.sill * 0.05 := by
  have hcond : fitCond params = true := by
    rcases hfit with h | h <;> simp [fitCond, h]
  have hn0 : params.nugget.getD 0 = 0 := by
    rcases hn with h | h <;> simp [h]
  simp [Kriging.make, Kriging.getParameters, resolvedNugget, resolvedSill,
    hcond, hn0]

/-- Witness for the amended C10: a single sample, supplied nugget 0,
sill and range left to the fitter. -/
theorem nugget_zero_conflation_witness :
    ([(⟨0, 0, 1⟩ : DataPoint)] ≠ []) ∧
    (({ nugget := some 0 } : KrigingParams).sill = none ∨
      ({ nugget := some 0 } : KrigingParams).range = none) ∧
    (({ nugget := some 0 } : KrigingParams).nugget = none ∨
      ({ nugget := some 0 } : KrigingParams).nugget = some 0) ∧
    (Kriging.make [⟨0, 0, 1⟩] { nugget := some 0 }).getParameters.nugget
      = (Kriging.make [⟨0, 0, 1⟩] { nugget := some 0 }).getParameters.sill
          * 0.05 :=
  ⟨by simp, Or.inl rfl, Or.inr rfl,
    nugget_zero_conflation [⟨0, 0, 1⟩] { nugget := some 0 } (by simp)
      (Or.inl rfl) (Or.inr rfl)⟩

/-- A positionally defaulted read from a list at an index within bounds
is a member of the list. -/
theorem getD_mem_of_lt {α : Type} (l : List α) (d : α) :
    ∀ n, n < l.length → l.getD n d ∈ l := by
  induction l with
  | nil => intro n h; simp at h
  | cons a l ih =>
      intro n h
      cases n with
      | zero => exact List.mem_cons_self a l
      | succ n =>
          rw [List.getD_cons_succ]
          exact List.mem_cons_of_mem a (ih n (Nat.lt_of_succ_lt_succ h))

/-- Swapping two in-bounds rows preserves the row count and the row
widths. -/
theorem swapRows_preserves (aug : List (List ℝ)) (i j : Nat) (c : Nat)
    (hi : i < aug.length) (hj : j < aug.length) (hc : RowsLen aug c) :
    (swapRows aug i j).length = aug.length ∧ RowsLen (swapRows aug i j) c := by
  constructor
  · simp [swapRows]
  · intro row hrow
    rcases List.mem_or_eq_of_mem_set hrow with h | h
    · rcases List.mem_or_eq_of_mem_set h with h' | h'
      · exact hc row h'
      · exact h' ▸ hc _ (getD_mem_of_lt aug [] j hj)
    · exact h ▸ hc _ (getD_mem_of_lt aug [] i hi)

/-- The pivot search never leaves the row range: starting below the row
count it returns an index below the row count. -/
theorem pivotRow_lt (aug : List (List ℝ)) (i : Nat) (h : i < aug.length) :
    pivotRow aug i < aug.length := by
  have key : ∀ (l : List Nat), (∀ k ∈ l, k < aug.length) →
      ∀ init, init < aug.length →
        l.foldl (fun maxRow k =>
          if |(aug.getD k []).getD i 0| > |(aug.getD maxRow []).getD i 0| then k
          else maxRow) init < aug.length := by
    intro l
    induction l with
    | nil => intro _ init hinit; exact hinit
    | cons a l ih =>
        intro hall init hinit
        rw [List.foldl_cons]
        apply ih (fun k hk => hall k (List.mem_cons_of_mem a hk))
        split
        · exact hall a (List.mem_cons_self a l)
        · exact hinit
  apply key _ _ i h
  intro k hk
  have := List.mem_range'_1.mp hk
  have h2 := this.2
  omega

/-- Overwriting one row with a row of the right width preserves the
row widths. -/
theorem set_preserves_rowsLen (aug : List (List ℝ)) (n : Nat)
    (newRow : List ℝ) (c : Nat) (hc : RowsLen aug c)
    (hnew : newRow.length = c) : RowsLen (aug.set n newRow) c := by
  intro row hrow
  rcases List.mem_or_eq_of_mem_set hrow with h | h
  · exact hc row h
  · exact h ▸ hnew

/-- The elimination pass preserves the row count. -/
theorem eliminateRows_length (i : Nat) (pr : List ℝ) :
    ∀ k l, (eliminateRows i pr k l).length = l.length := by
  intro k l
  induction l generalizing k with
  | nil => rfl
  | cons row rest ih => simp [eliminateRows, ih]

/-- The elimination pass preserves the row widths when the pivot row
has the same width. -/
theorem eliminateRows_rowsLen (i : Nat) (pr : List ℝ) (c : Nat)
    (hpr : pr.length = c) :
    ∀ k l, RowsLen l c → RowsLen (eliminateRows i pr k l) c := by
  intro k l
  induction l generalizing k with
  | nil => intro _ row hrow; cases hrow
  | cons r rest ih =>
      intro hl row hrow
      rw [eliminateRows] at hrow
      rcases List.mem_cons.mp hrow with h | h
      · rw [h]
        split
        · exact hl r (List.mem_cons_self r rest)
        · rw [List.length_zipWith, hl r (List.mem_cons_self r rest), hpr]
          exact Nat.min_self c
      · exact ih (k + 1) (fun row' hrow' => hl row' (List.mem_cons_of_mem r hrow')) row h

/-- One Gauss-Jordan iteration at an in-bounds index preserves the row
count and the row widths. -/
theorem gjStep_preserves (aug : List (List ℝ)) (i : Nat) (c : Nat)
    (hi : i < aug.length) (hc : RowsLen aug c) :
    (gjStep aug i).length = aug.length ∧ RowsLen (gjStep aug i) c := by
  obtain ⟨hslen, hsrows⟩ :=
    swapRows_preserves aug i (pivotRow aug i) c hi (pivotRow_lt aug i hi) hc
  have hslen' : (gjSwapped aug i).length = aug.length := hslen
  have hsrows' : RowsLen (gjSwapped aug i) c := hsrows
  have hi' : i < (gjSwapped aug i).length := hslen' ▸ hi
  have hrowi : ((gjSwapped aug i).getD i []).length = c :=
    hsrows' _ (getD_mem_of_lt (gjSwapped aug i) [] i hi')
  have hnlen : (gjNormalized aug i).length = aug.length := by
    rw [gjNormalized, List.length_set]; exact hslen'
  have hnrows : RowsLen (gjNormalized aug i) c := by
    apply set_preserves_rowsLen _ _ _ _ hsrows'
    rw [List.length_map]; exact hrowi
  have hi'' : i < (gjNormalized aug i).length := hnlen ▸ hi
  have hnrowi : ((gjNormalized aug i).getD i []).length = c :=
    hnrows _ (getD_mem_of_lt (gjNormalized aug i) [] i hi'')
  rw [gjStep]
  split
  · exact ⟨hslen', hsrows'⟩
  · constructor
    · rw [eliminateRows_length]; exact hnlen
    · exact eliminateRows_rowsLen i _ c hnrowi 0 _ hnrows

/-- The augmentation step turns an r-row matrix of width w into an
r-row matrix of width w + n. -/
theorem augmentRows_preserves (n : Nat) (w : Nat) :
    ∀ (l : List (List ℝ)) (start : Nat), RowsLen l w →
      (augmentRows n start l).length = l.length ∧
      RowsLen (augmentRows n start l) (w + n) := by
  intro l
  induction l with
  | nil => intro start _; exact ⟨rfl, fun row hrow => by cases hrow⟩
  | cons r rest ih =>
      intro start hl
      obtain ⟨ihlen, ihrows⟩ :=
        ih (start + 1) (fun row hrow => hl row (List.mem_cons_of_mem r hrow))
      constructor
      · simp [augmentRows, ihlen]
      · intro row hrow
        rw [augmentRows] at hrow
        rcases List.mem_cons.mp hrow with h | h
        · rw [h, List.length_append, hl r (List.mem_cons_self r rest)]
          simp [identityRow]
        · exact ihrows row h

/-- The Gauss-Jordan fold over any list of in-bounds indices preserves
the row count and the row widths. -/
theorem gjFold_preserves (c : Nat) :
    ∀ (idxs : List Nat) (aug : List (List ℝ)),
      (∀ k ∈ idxs, k < aug.length) → RowsLen aug c →
      (idxs.foldl gjStep aug).length = aug.length ∧
      RowsLen (idxs.foldl gjStep aug) c := by
  intro idxs
  induction idxs with
  | nil => intro aug _ hc; exact ⟨rfl, hc⟩
  | cons i rest ih =>
      intro aug hall hc
      obtain ⟨hlen, hrows⟩ :=
        gjStep_preserves aug i c (hall i (List.mem_cons_self i rest)) hc
      rw [List.foldl_cons]
      obtain ⟨hlen', hrows'⟩ :=
        ih (gjStep aug i)
          (fun k hk => hlen ▸ hall k (List.mem_cons_of_mem i hk)) hrows
      exact ⟨hlen'.trans hlen, hrows'⟩

/-- C7: `invertMatrix` is a total function (it terminates and throws
nothing on every input); on every square matrix it returns a matrix of
the same dimensions; and whenever the selected pivot of an elimination
step falls below the 1e-10 tolerance in absolute value, that step is
skipped entirely (warn-and-continue), leaving only the row swap. -/
theorem invertMatrix_dims_and_pivot_skip :
    (∀ m : List (List ℝ), SquareMat m →
      (invertMatrix m).length = m.length ∧
      RowsLen (invertMatrix m) m.length) ∧
    (∀ (aug : List (List ℝ)) (i : Nat), |gjPivot aug i| < 1e-10 →
      gjStep aug i = gjSwapped aug i) := by
  constructor
  · intro m hm
    obtain ⟨halen, harows⟩ := augmentRows_preserves m.length m.length m 0 hm
    obtain ⟨hflen, hfrows⟩ := gjFold_preserves (m.length + m.length)
      (List.range m.length) (augmentRows m.length 0 m)
      (fun k hk => by rw [halen]; exact List.mem_range.mp hk) harows
    constructor
    · rw [invertMatrix, List.length_map, hflen, halen]
    · intro row hrow
      rw [invertMatrix] at hrow
      obtain ⟨row', hrow', hdrop⟩ := List.mem_map.mp hrow
      rw [← hdrop, List.length_drop, hfrows row' hrow']
      omega
  · intro aug i h
    rw [gjStep, if_pos h]

/-- Witness for C7: the 1×1 matrix [[2]] is square and keeps its
dimensions through inversion; the 1×1 matrix [[0]] selects the pivot 0,
which is below tolerance, so its elimination step reduces to the bare
swap. -/
theorem invertMatrix_dims_and_pivot_skip_witness :
    SquareMat [[(2 : ℝ)]] ∧
    ((invertMatrix [[(2 : ℝ)]]).length = 1 ∧
      RowsLen (invertMatrix [[(2 : ℝ)]]) 1) ∧
    |gjPivot [[(0 : ℝ)]] 0| < 1e-10 ∧
    gjStep [[(0 : ℝ)]] 0 = gjSwapped [[(0 : ℝ)]] 0 := by
  have hsq : SquareMat [[(2 : ℝ)]] := by
    intro row hrow
    rw [List.mem_singleton.mp hrow]
    rfl
  have hpiv : |gjPivot [[(0 : ℝ)]] 0| < 1e-10 := by
    have : gjPivot [[(0 : ℝ)]] 0 = 0 := rfl
    rw [this, abs_zero]
    norm_num
  exact ⟨hsq, invertMatrix_dims_and_pivot_skip.1 [[(2 : ℝ)]] hsq, hpiv,
    invertMatrix_dims_and_pivot_skip.2 [[(0 : ℝ)]] 0 hpiv⟩

/-- C1: exact interpolation at observed locations — whenever M is a
true left inverse of the covariance matrix K, interpolating at the
coordinates of sample s returns exactly that sample's value: the
covariance vector built at s's coordinates is row s of K, which by
symmetry of K is column s, so the weight vector M·k is the s-th
standard basis vector. -/
theorem kriging_exact_interpolation_at_samples
    (data : List DataPoint) (model : VariogramModel) (nugget sill rng : ℝ)
    (M : Matrix (Fin data.length) (Fin data.length) ℝ)
    (hM : M * KmatF data model nugget sill rng = 1)
    (s : Fin data.length) :
    interpolateF data model nugget sill rng M
        (data.get s).lon (data.get s).lat = (data.get s).h2 := by
  have hsym : ∀ i j : Fin data.length,
      KmatF data model nugget sill rng i j
        = KmatF data model nugget sill rng j i := by
    intro i j
    simp only [KmatF, Matrix.of_apply]
    have hdist :
        dist2 (data.get i).lon (data.get i).lat (data.get j).lon (data.get j).lat
          = dist2 (data.get j).lon (data.get j).lat (data.get i).lon (data.get i).lat := by
      unfold dist2
      ring_nf
    rw [hdist]
  have hk : ∀ j, kvecF data model nugget sill rng
      (data.get s).lon (data.get s).lat j
        = KmatF data model nugget sill rng s j := fun j => rfl
  have hrow : ∀ i, (∑ j, M i j * KmatF data model nugget sill rng s j)
      = (M * KmatF data model nugget sill rng) i s := by
    intro i
    rw [Matrix.mul_apply]
    exact Finset.sum_congr rfl (fun j _ => by rw [hsym s j])
  unfold interpolateF
  simp only [hk, hrow, hM, Matrix.one_apply]
  simp [Finset.sum_ite_eq']

/-- Witness for C1: a single sample at the origin with value 5, sill 1,
spherical model; the covariance matrix is the 1×1 identity, inverted by
the identity, and interpolation at the sample returns 5. -/
theorem kriging_exact_interpolation_at_samples_witness :
    (1 : Matrix (Fin ([(⟨0, 0, 5⟩ : DataPoint)].length))
          (Fin ([(⟨0, 0, 5⟩ : DataPoint)].length)) ℝ) *
        KmatF [⟨0, 0, 5⟩] VariogramModel.spherical 0 1 1 = 1 ∧
    interpolateF [⟨0, 0, 5⟩] VariogramModel.spherical 0 1 1 1 0 0 = 5 := by
  have hK : KmatF [⟨0, 0, 5⟩] VariogramModel.spherical 0 1 1 = 1 := by
    ext i j
    fin_cases i
    fin_cases j
    simp [KmatF, dist2, variogram, Matrix.one_apply]
  have hM : (1 : Matrix (Fin ([(⟨0, 0, 5⟩ : DataPoint)].length))
        (Fin ([(⟨0, 0, 5⟩ : DataPoint)].length)) ℝ) *
      KmatF [⟨0, 0, 5⟩] VariogramModel.spherical 0 1 1 = 1 := by
    rw [hK, one_mul]
  exact ⟨hM, kriging_exact_interpolation_at_samples
    [⟨0, 0, 5⟩] VariogramModel.spherical 0 1 1 1 hM ⟨0, by norm_num⟩⟩
